import Mathlib

/-!
Verification of the position animation and track-following engine of a
subway-position visualizer.  The geometry library (`distance`,
`nearestPointOnLine`, `pointAlongLine`, `calculateBearing`), the
track-constrained path resolver (`findPathBetweenPoints`), the snapshot
reconciliation step, the frame producer, and the line-filter store
(`toggleLine`) are translated from the source; real numbers stand for
JavaScript doubles, association lists stand for JavaScript `Map`s.
-/

open Classical

noncomputable section

namespace MTA

/-- A coordinate pair (longitude, latitude), treated as planar Euclidean. -/
abbrev Point := ℝ × ℝ

/-- Source `distance(a, b)`: Euclidean distance between two coordinates. -/
def distance (a b : Point) : ℝ :=
  Real.sqrt ((a.1 - b.1) * (a.1 - b.1) + (a.2 - b.2) * (a.2 - b.2))

/-- Linear interpolation `a + t * (b - a)` componentwise, the form used
throughout the source for points on a segment. -/
def lerpP (a b : Point) (t : ℝ) : Point :=
  (a.1 + t * (b.1 - a.1), a.2 + t * (b.2 - a.2))

/-- Array indexing `line[i]` (out-of-range access never happens on the
executions the theorems talk about; the default is irrelevant there). -/
def get (l : List Point) (i : ℕ) : Point := l.getD i (0, 0)

/-- Source `nearestPointOnLine`, the clamped parameter for segment `a`-`b`:
`t = clamp (ap·ab / |ab|^2) [0,1]`, with `t = 0` for a degenerate segment. -/
def clampT (p a b : Point) : ℝ :=
  let abx := b.1 - a.1
  let aby := b.2 - a.2
  let apx := p.1 - a.1
  let apy := p.2 - a.2
  let abLen2 := abx * abx + aby * aby
  let t := if 0 < abLen2 then (apx * abx + apy * aby) / abLen2 else 0
  max 0 (min 1 t)

/-- The clamped orthogonal projection of `p` onto segment `i` of `line`. -/
def segProj (p : Point) (line : List Point) (i : ℕ) : Point :=
  lerpP (get line i) (get line (i + 1)) (clampT p (get line i) (get line (i + 1)))

/-- Result record of `nearestPointOnLine`: projected point, segment index,
parametric offset within that segment. -/
structure NearRes where
  point : Point
  index : ℕ
  t : ℝ

/-- One iteration of the `nearestPointOnLine` loop.  The first component
models `nearestDist` (`none` is the initial `Infinity`). -/
def nearStep (p : Point) (line : List Point) (st : Option ℝ × NearRes) (i : ℕ) :
    Option ℝ × NearRes :=
  let d := distance p (segProj p line i)
  match st.1 with
  | none => (some d, ⟨segProj p line i, i, clampT p (get line i) (get line (i + 1))⟩)
  | some bd =>
    if d < bd then (some d, ⟨segProj p line i, i, clampT p (get line i) (get line (i + 1))⟩)
    else st

/-- Source `nearestPointOnLine(point, line)`: scan all consecutive segments
and keep the clamped projection with minimum distance.  With fewer than two
points the loop body never runs and the initial record (the query point
itself, index 0, t 0) is returned. -/
def nearestPointOnLine (p : Point) (line : List Point) : NearRes :=
  ((List.range (line.length - 1)).foldl (nearStep p line) (none, ⟨p, 0, 0⟩)).2

/-- The point on segment `i` of `line` at parametric offset `t`, the
`line[i] + t * (line[i+1] - line[i])` pattern of the source. -/
def segPoint (line : List Point) (i : ℕ) (t : ℝ) : Point :=
  lerpP (get line i) (get line (i + 1)) t

/-- Length of one built segment (source caches it as `seg.dist`). -/
def segLen (s : Point × Point) : ℝ := distance s.1 s.2

/-- Total length of a built segment list (`totalDist` in the source). -/
def lenSum (segs : List (Point × Point)) : ℝ := (segs.map segLen).sum

/-- The full middle segments pushed by the forward loop of `pointAlongLine`:
`m` segments starting at vertex `i`, each `(line[j], line[j+1])`. -/
def midF (line : List Point) : ℕ → ℕ → List (Point × Point)
  | _, 0 => []
  | i, Nat.succ m => (get line i, get line (i + 1)) :: midF line (i + 1) m

/-- The full middle segments pushed by the backward loop of `pointAlongLine`:
`m` segments starting at `(line[i+1], line[i])` and descending. -/
def midB (line : List Point) : ℕ → ℕ → List (Point × Point)
  | _, 0 => []
  | i, Nat.succ m => (get line (i + 1), get line i) :: midB line (i - 1) m

/-- The segment chain built by `pointAlongLine` when start and end lie in
different segments: first partial segment, full segments between, last
partial segment; reversed vertex order when travelling backward. -/
def segsOf (line : List Point) (sI : ℕ) (sT : ℝ) (eI : ℕ) (eT : ℝ) :
    List (Point × Point) :=
  let sp := segPoint line sI sT
  let ep := segPoint line eI eT
  if sI < eI then
    (sp, get line (sI + 1)) ::
      (midF line (sI + 1) (eI - (sI + 1)) ++ [(get line eI, ep)])
  else
    (sp, get line sI) ::
      (midB line (sI - 1) (sI - 1 - eI) ++ [(get line (eI + 1), ep)])

/-- The accumulation loop of `pointAlongLine`: find the segment containing
`targetDist` and interpolate within it; also report the accumulated path
distance of the returned point (the source computes only the point; the
second component instruments the same loop with the arc position). -/
def walk : List (Point × Point) → ℝ → ℝ → Option (Point × ℝ)
  | [], _, _ => none
  | s :: rest, target, acc =>
    let d := segLen s
    if target ≤ acc + d then
      let segProgress := if 0 < d then (target - acc) / d else 0
      some (lerpP s.1 s.2 segProgress, acc + segProgress * d)
    else walk rest target (acc + d)

/-- Source `pointAlongLine` with its arc position: same-segment direct
interpolation, otherwise build the segment chain, walk to
`progress * totalDist`, and fall back to the last segment end (or the start
point when there are no segments) exactly as the source does. -/
def pointAlongLineAux (line : List Point) (sI : ℕ) (sT : ℝ) (eI : ℕ) (eT : ℝ)
    (progress : ℝ) : Point × ℝ :=
  let sp := segPoint line sI sT
  if sI = eI then
    let ep := segPoint line eI eT
    (lerpP sp ep progress, progress * distance sp ep)
  else
    let segs := segsOf line sI sT eI eT
    let total := lenSum segs
    let target := progress * total
    match walk segs target 0 with
    | some r => r
    | none =>
      match segs.getLast? with
      | some s => (s.2, total)
      | none => (sp, total)

/-- Source `pointAlongLine(line, startIndex, startT, endIndex, endT, progress)`. -/
def pointAlongLine (line : List Point) (sI : ℕ) (sT : ℝ) (eI : ℕ) (eT : ℝ)
    (progress : ℝ) : Point :=
  (pointAlongLineAux line sI sT eI eT progress).1

/-- The path distance, measured from the start projection along the built
segment chain, of the point `pointAlongLine` returns (second component of
the instrumented loop). -/
def pointAlongLineArc (line : List Point) (sI : ℕ) (sT : ℝ) (eI : ℕ) (eT : ℝ)
    (progress : ℝ) : ℝ :=
  (pointAlongLineAux line sI sT eI eT progress).2

/-- Consecutive built segments share an endpoint. -/
def chainedSegs : List (Point × Point) → Prop
  | [] => True
  | [_] => True
  | a :: b :: r => a.2 = b.1 ∧ chainedSegs (b :: r)

/-- Invariant of the `nearestPointOnLine` loop state: the tracked best
distance belongs to the tracked record, which is a clamped projection onto a
real segment of the polyline (or the untouched initial record). -/
def goodRes (p : Point) (line : List Point) (st : Option ℝ × NearRes) : Prop :=
  match st.1 with
  | none => st.2 = ⟨p, 0, 0⟩
  | some bd => bd = distance p st.2.point ∧
      st.2.point = segProj p line st.2.index ∧
      st.2.t = clampT p (get line st.2.index) (get line (st.2.index + 1)) ∧
      st.2.index + 1 < line.length

/-- An ordered list of coordinates describing a physical track segment. -/
abbrev Polyline := List Point

/-- Lookup in a JavaScript `Map` modelled as an association list. -/
def lookupA {α : Type} (m : List (String × α)) (k : String) : Option α :=
  (m.find? (fun en => en.1 == k)).map (·.2)

/-- The `routePaths` map: route id to candidate polylines. -/
abbrev RoutePaths := List (String × List Polyline)

/-- The record `findPathBetweenPoints` returns on success. -/
structure PathInfo where
  path : Polyline
  startIndex : ℕ
  startT : ℝ
  endIndex : ℕ
  endT : ℝ

/-- The loop state of `findPathBetweenPoints`: `bestPath` together with
`bestStartInfo` and `bestEndInfo` (the initial `null` / `Infinity` state is
`none`). -/
structure BestInfo where
  path : Polyline
  sIdx : ℕ
  sT : ℝ
  sDist : ℝ
  eIdx : ℕ
  eT : ℝ
  eDist : ℝ

/-- Distance from a query point to its projection onto a polyline. -/
def projDist (q : Point) (P : Polyline) : ℝ :=
  distance q (nearestPointOnLine q P).point

/-- The score of a candidate polyline: sum of the two projection distances. -/
def pathScore (s e : Point) (P : Polyline) : ℝ := projDist s P + projDist e P

/-- The candidate record built from one polyline. -/
def mkBest (s e : Point) (P : Polyline) : BestInfo :=
  ⟨P, (nearestPointOnLine s P).index, (nearestPointOnLine s P).t, projDist s P,
    (nearestPointOnLine e P).index, (nearestPointOnLine e P).t, projDist e P⟩

/-- One iteration of the `findPathBetweenPoints` loop: skip degenerate
polylines, otherwise keep the candidate if its total projection distance
beats the best so far (strictly). -/
def findStep (s e : Point) (best : Option BestInfo) (path : Polyline) : Option BestInfo :=
  if 2 ≤ path.length then
    let sn := nearestPointOnLine s path
    let en := nearestPointOnLine e path
    let sd := distance s sn.point
    let ed := distance e en.point
    match best with
    | none => some ⟨path, sn.index, sn.t, sd, en.index, en.t, ed⟩
    | some b =>
      if sd + ed < b.sDist + b.eDist then some ⟨path, sn.index, sn.t, sd, en.index, en.t, ed⟩
      else best
  else best

/-- The loop of `findPathBetweenPoints` over all candidate polylines. -/
def selectBest (s e : Point) (paths : List Polyline) : Option BestInfo :=
  paths.foldl (findStep s e) none

/-- Source `findPathBetweenPoints(routeId, start, end)`: scan the route's
polylines for the best-scoring one, then accept only if both projection
distances are below the 0.005 proximity threshold.  A missing route or an
empty path list makes the loop yield `none`, which is the source's early
`null` return. -/
def findPathBetweenPoints (rp : RoutePaths) (routeId : String) (s e : Point) :
    Option PathInfo :=
  let paths := (lookupA rp routeId).getD []
  match selectBest s e paths with
  | some b =>
    if b.sDist < 0.005 ∧ b.eDist < 0.005 then
      some ⟨b.path, b.sIdx, b.sT, b.eIdx, b.eT⟩
    else none
  | none => none

/-- The candidate polylines of a route that the loop does not skip. -/
def candPaths (rp : RoutePaths) (routeId : String) : List Polyline :=
  ((lookupA rp routeId).getD []).filter (fun P => decide (2 ≤ P.length))

/-- Loop-state well-formedness: a tracked best is the record built from its
own polyline. -/
def okB (s e : Point) : Option BestInfo → Prop
  | none => True
  | some b => b = mkBest s e b.path

/-- Two-argument arctangent with JavaScript `Math.atan2(y, x)` semantics on
the reals (the signed-zero distinctions of doubles collapse). -/
def atan2 (y x : ℝ) : ℝ :=
  if 0 < x then Real.arctan (y / x)
  else if x < 0 then
    (if 0 ≤ y then Real.arctan (y / x) + Real.pi else Real.arctan (y / x) - Real.pi)
  else
    (if 0 < y then Real.pi / 2 else if y < 0 then -(Real.pi / 2) else 0)

/-- Source `calculateBearing(from, to)`: `atan2(dx, dy) * 180 / π`, degrees
with 0 = north and 90 = east (clockwise geographic convention). -/
def calculateBearing (a b : Point) : ℝ :=
  atan2 (b.1 - a.1) (b.2 - a.2) * (180 / Real.pi)

/-- Direction hint derived from a stop id ('N' or 'S' suffix). -/
inductive Dir
  | N
  | S
deriving DecidableEq

/-- Source `getDirectionFromStopId`: look at the trailing character of the
stop id (`slice(-1)` of the empty string matches nothing). -/
def getDirectionFromStopId : Option String → Option Dir
  | none => none
  | some sid =>
    match sid.data.getLast? with
    | some c => if c = 'N' then some Dir.N else if c = 'S' then some Dir.S else none
    | none => none

/-- Source `TrainAnimation`: the per-entity Animation record.  The optional
path fields are always present together and are bundled as one option. -/
structure TrainAnimation where
  startPos : Point
  endPos : Point
  startTime : ℝ
  routeId : String
  path : Option PathInfo

/-- The tangent-bearing block of the frame producer: project the current
coordinates onto the path, take the direction between the enclosing
segment's two vertices (with the source's guard for the last index), and
reverse by 180 degrees for a southbound direction hint. -/
def segTangentBearing (path : Polyline) (coords : Point) (direction : Option Dir) : ℝ :=
  let nearest := nearestPointOnLine coords path
  let idx := nearest.index
  let ft :=
    if idx < path.length - 1 then (get path idx, get path (idx + 1))
    else (get path (idx - 1), get path idx)
  let b := calculateBearing ft.1 ft.2
  if direction = some Dir.S then b + 180 else b

/-- The fallback bearing loop of the frame producer: first route polyline
with at least 2 points whose projection distance is under 0.005 wins. -/
def bearingFallback : List Polyline → Point → Dir → Option ℝ
  | [], _, _ => none
  | P :: rest, coords, d =>
    if 2 ≤ P.length then
      let nearest := nearestPointOnLine coords P
      if distance coords nearest.point < 0.005 then
        some (segTangentBearing P coords (some d))
      else bearingFallback rest coords d
    else bearingFallback rest coords d

/-- The direction-hint fallback branch of the bearing computation. -/
def bearingFor (rp : RoutePaths) (routeId : String) (direction : Option Dir)
    (coords : Point) : Option ℝ :=
  match direction with
  | some d => bearingFallback ((lookupA rp routeId).getD []) coords d
  | none => none

/-- The full bearing computation of the frame producer: use the live
animation's path when it has at least 2 points, otherwise fall back to the
direction-hint search, otherwise no bearing. -/
def bearingOf (rp : RoutePaths) (routeId : String) (anim? : Option TrainAnimation)
    (direction : Option Dir) (coords : Point) : Option ℝ :=
  match anim? with
  | some anim =>
    match anim.path with
    | some pinfo =>
      if 2 ≤ pinfo.path.length then some (segTangentBearing pinfo.path coords direction)
      else bearingFor rp routeId direction coords
    | none => bearingFor rp routeId direction coords
  | none => bearingFor rp routeId direction coords

/-! ### Snapshot records, animation state and reconciliation -/

/-- A snapshot record for one tracked entity (one `train` of the batch). -/
structure Train where
  id : String
  routeId : String
  longitude : ℝ
  latitude : ℝ
  currentStopId : Option String
  status : String

/-- The snapshot's own coordinates, `[train.longitude, train.latitude]`. -/
def trainPos (t : Train) : Point := (t.longitude, t.latitude)

/-- The two core-owned mutable maps: `trainAnimations` and
`currentPositions` (the last-known-position cache). -/
structure AnimState where
  trainAnimations : List (String × TrainAnimation)
  currentPositions : List (String × Point)

/-- Source `ANIMATION_DURATION` (ms). -/
def ANIMATION_DURATION : ℝ := 4000

/-- Source `easeOutCubic`. -/
def easeOutCubic (t : ℝ) : ℝ := 1 - (1 - t) ^ 3

/-- `Map.set`: replace any binding of the key and add the new one. -/
def setA {α : Type} (m : List (String × α)) (k : String) (v : α) : List (String × α) :=
  (k, v) :: m.filter (fun en => en.1 != k)

/-- `Map.delete`. -/
def delA {α : Type} (m : List (String × α)) (k : String) : List (String × α) :=
  m.filter (fun en => en.1 != k)

/-- The `startPos` computation of the reconciliation effect: sample a live
animation at the current time (path-based or straight-line, eased), else the
cache entry, else the snapshot's own position. -/
def computeStartPos (st : AnimState) (train : Train) (now : ℝ) : Point :=
  match lookupA st.trainAnimations train.id with
  | some anim =>
    let elapsed := now - anim.startTime
    let progress := min (elapsed / ANIMATION_DURATION) 1
    let easedProgress := easeOutCubic progress
    match anim.path with
    | some pinfo =>
      pointAlongLine pinfo.path pinfo.startIndex pinfo.startT pinfo.endIndex pinfo.endT
        easedProgress
    | none =>
      (anim.startPos.1 + (anim.endPos.1 - anim.startPos.1) * easedProgress,
       anim.startPos.2 + (anim.endPos.2 - anim.startPos.2) * easedProgress)
  | none =>
    match lookupA st.currentPositions train.id with
    | some c => c
    | none => trainPos train

/-- The early-return check of the reconciliation effect: the cache entry is
within 1e-6 of the new position in both coordinates. -/
def epsClose (st : AnimState) (train : Train) : Prop :=
  ∃ c, lookupA st.currentPositions train.id = some c ∧
    |c.1 - train.longitude| < 0.000001 ∧ |c.2 - train.latitude| < 0.000001

/-- The body of the reconciliation effect after the early-return check:
snap when the jump exceeds 0.02, animate (path-based or straight-line) when
it exceeds 1e-5, otherwise leave the state untouched. -/
def reconcileCore (rp : RoutePaths) (now : ℝ) (st : AnimState) (train : Train) : AnimState :=
  let newPos := trainPos train
  let startPos := computeStartPos st train now
  let dist := distance startPos newPos
  if 0.02 < dist then
    { trainAnimations := delA st.trainAnimations train.id,
      currentPositions := setA st.currentPositions train.id newPos }
  else if 0.00001 < dist then
    match findPathBetweenPoints rp train.routeId startPos newPos with
    | some pinfo =>
      let a := TrainAnimation.mk startPos newPos now train.routeId (some pinfo)
      { st with trainAnimations := setA st.trainAnimations train.id a }
    | none =>
      let a := TrainAnimation.mk startPos newPos now train.routeId none
      { st with trainAnimations := setA st.trainAnimations train.id a }
  else st

/-- One iteration of the reconciliation effect for one snapshot record. -/
def reconcileTrain (rp : RoutePaths) (now : ℝ) (st : AnimState) (train : Train) : AnimState :=
  match lookupA st.currentPositions train.id with
  | some c =>
    if |c.1 - train.longitude| < 0.000001 ∧ |c.2 - train.latitude| < 0.000001 then st
    else reconcileCore rp now st train
  | none => reconcileCore rp now st train

/-- The cleanup loop of the reconciliation effect: for every id keyed in
`trainAnimations` and absent from the batch, delete it from both maps.  A
cache entry whose id has no animation record is never visited. -/
def cleanup (st : AnimState) (ids : List String) : AnimState :=
  { trainAnimations := st.trainAnimations.filter (fun en => ids.contains en.1),
    currentPositions := st.currentPositions.filter
      (fun en => ids.contains en.1 || !(st.trainAnimations.any (fun f => f.1 == en.1))) }

/-- The whole reconciliation effect over one snapshot batch. -/
def reconcileBatch (rp : RoutePaths) (now : ℝ) (st : AnimState) (trains : List Train) :
    AnimState :=
  cleanup (trains.foldl (reconcileTrain rp now) st) (trains.map Train.id)

/-- One render record emitted by the frame producer (GeoJSON feature
properties plus coordinates). -/
structure RenderRecord where
  id : String
  routeId : String
  status : String
  coords : Point
  bearing : Option ℝ
  direction : Option Dir

/-- One iteration of the frame producer for one tracked entity: sample a
live animation (finalizing it when progress reached 1), else render the
cache entry (or the snapshot position) and refresh the cache; then derive
the bearing from the possibly-updated animation map. -/
def animateStep (rp : RoutePaths) (now : ℝ) (st : AnimState) (train : Train) :
    AnimState × RenderRecord :=
  let res : AnimState × Point :=
    match lookupA st.trainAnimations train.id with
    | some anim =>
      let elapsed := now - anim.startTime
      let progress := min (elapsed / ANIMATION_DURATION) 1
      let easedProgress := easeOutCubic progress
      let coords :=
        match anim.path with
        | some pinfo =>
          pointAlongLine pinfo.path pinfo.startIndex pinfo.startT pinfo.endIndex pinfo.endT
            easedProgress
        | none =>
          (anim.startPos.1 + (anim.endPos.1 - anim.startPos.1) * easedProgress,
           anim.startPos.2 + (anim.endPos.2 - anim.startPos.2) * easedProgress)
      if 1 ≤ progress then
        ({ trainAnimations := delA st.trainAnimations train.id,
           currentPositions := setA st.currentPositions train.id anim.endPos }, coords)
      else (st, coords)
    | none =>
      let coords := (lookupA st.currentPositions train.id).getD (trainPos train)
      ({ st with currentPositions := setA st.currentPositions train.id coords }, coords)
  let st1 := res.1
  let coords := res.2
  let direction := getDirectionFromStopId train.currentStopId
  let bearing := bearingOf rp train.routeId (lookupA st1.trainAnimations train.id)
    direction coords
  (st1, ⟨train.id, train.routeId, train.status, coords, bearing, direction⟩)

/-- The frame producer over the filtered snapshot batch: one render record
per tracked entity, threading the state mutations through. -/
def animateFrame (rp : RoutePaths) (now : ℝ) : AnimState → List Train →
    AnimState × List RenderRecord
  | st, [] => (st, [])
  | st, t :: rest =>
    let r1 := animateStep rp now st t
    let r2 := animateFrame rp now r1.1 rest
    (r2.1, r1.2 :: r2.2)

/-- The coordinates the next frame renders for one entity. -/
def frameCoords (rp : RoutePaths) (st : AnimState) (train : Train) (now : ℝ) : Point :=
  (animateStep rp now st train).2.coords

/-- Every live Animation record has a straight-line displacement of at most
the 0.02 snap threshold. -/
def AnimInv (st : AnimState) : Prop :=
  ∀ id a, lookupA st.trainAnimations id = some a → distance a.startPos a.endPos ≤ 0.02

/-! ### The line-filter store -/

/-- Source `LINE_GROUPS` from the store module. -/
def LINE_GROUPS : List (String × List String) :=
  [("1/2/3", ["1", "2", "3"]),
   ("4/5/6", ["4", "5", "6"]),
   ("7", ["7"]),
   ("A/C/E", ["A", "C", "E"]),
   ("B/D/F/M", ["B", "D", "F", "M"]),
   ("G", ["G"]),
   ("J/Z", ["J", "Z"]),
   ("L", ["L"]),
   ("N/Q/R/W", ["N", "Q", "R", "W"]),
   ("S", ["S", "GS", "FS", "H", "SI"])]

/-- `LINE_GROUPS[lineGroup] || [lineGroup]`. -/
def groupRoutes (lineGroup : String) : List String :=
  ((LINE_GROUPS.find? (fun en => en.1 == lineGroup)).map (·.2)).getD [lineGroup]

/-- Source `toggleLine` of the store: from the show-all state select exactly
the group's routes; otherwise remove the whole group when fully present
(collapsing the empty set back to show-all) or add the whole group. -/
def toggleLine (lineGroup : String) (activeLines : Option (Finset String)) :
    Option (Finset String) :=
  let routes := groupRoutes lineGroup
  match activeLines with
  | none => some routes.toFinset
  | some s =>
    if routes.all (fun r => decide (r ∈ s)) then
      let s2 := routes.foldl (fun acc r => acc.erase r) s
      if s2.card = 0 then none else some s2
    else some (routes.foldl (fun acc r => insert r acc) s)

/-! ### Concrete fixtures used by witnesses and counterexamples -/

/-- A finished straight-line animation resting at the origin. -/
def animX : TrainAnimation := ⟨(0, 0), (0, 0), 0, "L", none⟩

/-- A snapshot for entity X at the origin. -/
def trainX : Train := ⟨"X", "L", 0, 0, none, "STOPPED"⟩

/-- A state tracking entity X with a live animation and an empty cache. -/
def stX : AnimState := ⟨[("X", animX)], []⟩

/-- A state with entity X cached at the spec's literal old position. -/
def stOld : AnimState := ⟨[], [("X", (-73.98, 40.75))]⟩

/-- A snapshot for entity X at the spec's literal new position. -/
def trainJump : Train := ⟨"X", "L", -73.5, 40.3, none, "IN_TRANSIT"⟩

/-- A state with a cache entry for X but no animation record. -/
def stStale : AnimState := ⟨[], [("X", (0, 0))]⟩

/-! ### Basic geometry lemmas -/

theorem distance_nonneg (a b : Point) : 0 ≤ distance a b := Real.sqrt_nonneg _

theorem segLen_nonneg (s : Point × Point) : 0 ≤ segLen s := distance_nonneg _ _

theorem lenSum_nonneg (segs : List (Point × Point)) : 0 ≤ lenSum segs := by
  induction segs with
  | nil => simp [lenSum]
  | cons s rest ih =>
    have hs := segLen_nonneg s
    simp only [lenSum, List.map_cons, List.sum_cons]
    have : (0:ℝ) ≤ (rest.map segLen).sum := ih
    linarith

theorem lenSum_cons (s : Point × Point) (rest : List (Point × Point)) :
    lenSum (s :: rest) = segLen s + lenSum rest := by
  simp [lenSum]

theorem distance_eq_zero {a b : Point} (h : distance a b = 0) : a = b := by
  have hle : (a.1 - b.1) * (a.1 - b.1) + (a.2 - b.2) * (a.2 - b.2) ≤ 0 :=
    Real.sqrt_eq_zero'.mp h
  have h1 : a.1 = b.1 := by nlinarith [sq_nonneg (a.1 - b.1), sq_nonneg (a.2 - b.2)]
  have h2 : a.2 = b.2 := by nlinarith [sq_nonneg (a.1 - b.1), sq_nonneg (a.2 - b.2)]
  exact Prod.ext h1 h2

theorem lerpP_zero (a b : Point) : lerpP a b 0 = a := by
  simp [lerpP]

theorem lerpP_one (a b : Point) : lerpP a b 1 = b := by
  simp [lerpP]

/-! ### The built segment chain is connected -/

theorem chainedSegs_cons_of (a : Point × Point) (L : List (Point × Point))
    (hL : chainedSegs L) (hhd : ∀ b r, L = b :: r → a.2 = b.1) :
    chainedSegs (a :: L) := by
  cases L with
  | nil => trivial
  | cons b r => exact ⟨hhd b r rfl, hL⟩

theorem midF_head_fst (line : List Point) (m i : ℕ) (q : Point) :
    ((midF line i m ++ [(get line (i + m), q)]).head?).map Prod.fst =
      some (get line i) := by
  cases m <;> simp [midF]

theorem midB_head_fst (line : List Point) (m i : ℕ) (q : Point) :
    ((midB line i m ++ [(get line (i + 1 - m), q)]).head?).map Prod.fst =
      some (get line (i + 1)) := by
  cases m <;> simp [midB]

theorem chainF (line : List Point) (q : Point) :
    ∀ m i, chainedSegs (midF line i m ++ [(get line (i + m), q)]) := by
  intro m
  induction m with
  | zero => intro i; simp [midF, chainedSegs]
  | succ m ih =>
    intro i
    have h : i + (m + 1) = (i + 1) + m := by omega
    rw [h, midF, List.cons_append]
    refine chainedSegs_cons_of _ _ (ih (i + 1)) ?_
    intro b r hbr
    have := midF_head_fst line m (i + 1) q
    rw [hbr] at this
    simp only [List.head?_cons, Option.map_some'] at this
    exact (Option.some.injEq _ _ ▸ this).symm

theorem chainB (line : List Point) (q : Point) :
    ∀ m i, m ≤ i → chainedSegs (midB line i m ++ [(get line (i + 1 - m), q)]) := by
  intro m
  induction m with
  | zero => intro i _; simp [midB, chainedSegs]
  | succ m ih =>
    intro i hm
    have h : i + 1 - (m + 1) = (i - 1) + 1 - m := by omega
    rw [h, midB, List.cons_append]
    refine chainedSegs_cons_of _ _ (ih (i - 1) (by omega)) ?_
    intro b r hbr
    have := midB_head_fst line m (i - 1) q
    rw [hbr] at this
    simp only [List.head?_cons, Option.map_some'] at this
    have hi : (i - 1) + 1 = i := by omega
    rw [hi] at this
    exact (Option.some.injEq _ _ ▸ this).symm

theorem segsOf_chained (line : List Point) (sI : ℕ) (sT : ℝ) (eI : ℕ) (eT : ℝ)
    (h : sI ≠ eI) : chainedSegs (segsOf line sI sT eI eT) := by
  by_cases hlt : sI < eI
  · simp only [segsOf, if_pos hlt]
    have harith : (sI + 1) + (eI - (sI + 1)) = eI := by omega
    refine chainedSegs_cons_of _ _ ?_ ?_
    · have hc := chainF line (segPoint line eI eT) (eI - (sI + 1)) (sI + 1)
      rw [harith] at hc
      exact hc
    · intro b r hbr
      have h2 := midF_head_fst line (eI - (sI + 1)) (sI + 1) (segPoint line eI eT)
      rw [harith, hbr] at h2
      simp only [List.head?_cons, Option.map_some'] at h2
      exact (Option.some.injEq _ _ ▸ h2).symm
  · have hgt : eI < sI := by omega
    simp only [segsOf, if_neg hlt]
    have harith : (sI - 1) + 1 - (sI - 1 - eI) = eI + 1 := by omega
    refine chainedSegs_cons_of _ _ ?_ ?_
    · have hc := chainB line (segPoint line eI eT) (sI - 1 - eI) (sI - 1) (by omega)
      rw [harith] at hc
      exact hc
    · intro b r hbr
      have h2 := midB_head_fst line (sI - 1 - eI) (sI - 1) (segPoint line eI eT)
      rw [harith, hbr] at h2
      simp only [List.head?_cons, Option.map_some'] at h2
      have hi : (sI - 1) + 1 = sI := by omega
      rw [hi] at h2
      exact (Option.some.injEq _ _ ▸ h2).symm

theorem cons_append_getLast? (a : Point × Point) (l : List (Point × Point))
    (y : Point × Point) : (a :: (l ++ [y])).getLast? = some y := by
  rw [← List.cons_append]
  exact List.getLast?_concat _

theorem segsOf_getLast?_snd (line : List Point) (sI : ℕ) (sT : ℝ) (eI : ℕ) (eT : ℝ) :
    ((segsOf line sI sT eI eT).getLast?).map Prod.snd = some (segPoint line eI eT) := by
  by_cases hlt : sI < eI
  · simp only [segsOf, if_pos hlt, cons_append_getLast?, Option.map_some']
  · simp only [segsOf, if_neg hlt, cons_append_getLast?, Option.map_some']

theorem segsOf_ne_nil (line : List Point) (sI : ℕ) (sT : ℝ) (eI : ℕ) (eT : ℝ) :
    segsOf line sI sT eI eT ≠ [] := by
  by_cases hlt : sI < eI <;> simp [segsOf, hlt]

/-! ### The walk loop -/

theorem chain_zero_last :
    ∀ (rest : List (Point × Point)) (s : Point × Point), chainedSegs (s :: rest) →
      lenSum rest = 0 → ((s :: rest).getLast?).map Prod.snd = some s.2 := by
  intro rest
  induction rest with
  | nil => intro s _ _; simp
  | cons b r ih =>
    intro s hchain hlen
    obtain ⟨hab, hchain2⟩ := hchain
    rw [lenSum_cons] at hlen
    have hb0 : segLen b = 0 := by
      have h1 := segLen_nonneg b
      have h2 := lenSum_nonneg r
      linarith
    have hr0 : lenSum r = 0 := by
      have h1 := segLen_nonneg b
      have h2 := lenSum_nonneg r
      linarith
    have hbeq : b.1 = b.2 := distance_eq_zero hb0
    have := ih b hchain2 hr0
    rw [List.getLast?_cons_cons]
    rw [this, hab, hbeq]

theorem walk_total :
    ∀ (segs : List (Point × Point)) (acc : ℝ) (q : Point), segs ≠ [] →
      chainedSegs segs → (segs.getLast?).map Prod.snd = some q →
      (walk segs (acc + lenSum segs) acc).map Prod.fst = some q := by
  intro segs
  induction segs with
  | nil => intro _ _ h; exact absurd rfl h
  | cons s rest ih =>
    intro acc q _ hchain hlast
    by_cases hr : lenSum rest = 0
    · have hcond : acc + lenSum (s :: rest) ≤ acc + segLen s := by
        rw [lenSum_cons, hr]; linarith
      simp only [walk]
      rw [if_pos hcond]
      have hq : some s.2 = some q := by
        have := chain_zero_last rest s hchain hr
        rw [hlast] at this
        exact this.symm
      by_cases hd : 0 < segLen s
      · have hsp : (if 0 < segLen s then (acc + lenSum (s :: rest) - acc) / segLen s else 0) = 1 := by
          rw [if_pos hd, lenSum_cons, hr]
          field_simp
        rw [hsp, lerpP_one]
        simpa using hq
      · have hd0 : segLen s = 0 := le_antisymm (not_lt.mp hd) (segLen_nonneg s)
        have hsp : (if 0 < segLen s then (acc + lenSum (s :: rest) - acc) / segLen s else 0) = 0 := by
          rw [if_neg hd]
        rw [hsp, lerpP_zero]
        have hse : s.1 = s.2 := distance_eq_zero hd0
        rw [hse]
        simpa using hq
    · have hpos : 0 < lenSum rest := lt_of_le_of_ne (lenSum_nonneg rest) (Ne.symm hr)
      have hcond : ¬ (acc + lenSum (s :: rest) ≤ acc + segLen s) := by
        rw [lenSum_cons]; linarith
      simp only [walk]
      rw [if_neg hcond]
      have hrw : acc + lenSum (s :: rest) = (acc + segLen s) + lenSum rest := by
        rw [lenSum_cons]; ring
      rw [hrw]
      have hrne : rest ≠ [] := by
        intro hre
        rw [hre] at hr
        simp [lenSum] at hr
      refine ih (acc + segLen s) q hrne ?_ ?_
      · cases rest with
        | nil => exact absurd rfl hrne
        | cons b r => exact hchain.2
      · cases rest with
        | nil => exact absurd rfl hrne
        | cons b r => rw [← List.getLast?_cons_cons (a := s)]; exact hlast

theorem walk_arc :
    ∀ (segs : List (Point × Point)) (target acc : ℝ), segs ≠ [] →
      acc ≤ target → target ≤ acc + lenSum segs →
      ∃ pt, walk segs target acc = some (pt, target) := by
  intro segs
  induction segs with
  | nil => intro _ _ h; exact absurd rfl h
  | cons s rest ih =>
    intro target acc _ hle hub
    by_cases hc : target ≤ acc + segLen s
    · by_cases hd : 0 < segLen s
      · refine ⟨lerpP s.1 s.2 ((target - acc) / segLen s), ?_⟩
        simp only [walk]
        rw [if_pos hc, if_pos hd]
        have harc : acc + (target - acc) / segLen s * segLen s = target := by
          field_simp
        rw [harc]
      · have hd0 : segLen s = 0 := le_antisymm (not_lt.mp hd) (segLen_nonneg s)
        have hta : target = acc := by
          rw [hd0] at hc; linarith
        refine ⟨lerpP s.1 s.2 0, ?_⟩
        simp only [walk]
        rw [if_pos hc, if_neg hd, hta]
        norm_num
    · have hlt : acc + segLen s < target := not_le.mp hc
      simp only [walk]
      rw [if_neg hc]
      have hrne : rest ≠ [] := by
        intro hre
        rw [hre, lenSum_cons] at hub
        simp [lenSum] at hub
        linarith
      exact ih target (acc + segLen s) hrne (le_of_lt hlt)
        (by rw [lenSum_cons] at hub; linarith)

theorem walk_head_zero (s : Point × Point) (rest : List (Point × Point)) :
    walk (s :: rest) 0 0 = some (s.1, 0) := by
  have hd := segLen_nonneg s
  simp only [walk]
  rw [if_pos (by linarith)]
  have hsp : (if 0 < segLen s then ((0:ℝ) - 0) / segLen s else 0) = 0 := by
    split <;> simp
  rw [hsp, lerpP_zero]
  norm_num

theorem pointAlongLine_zero (line : List Point) (sI : ℕ) (sT : ℝ) (eI : ℕ) (eT : ℝ) :
    pointAlongLine line sI sT eI eT 0 = segPoint line sI sT := by
  by_cases h : sI = eI
  · simp [pointAlongLine, pointAlongLineAux, h, lerpP_zero]
  · simp only [pointAlongLine, pointAlongLineAux, if_neg h, zero_mul]
    by_cases hlt : sI < eI <;> simp [segsOf, hlt, walk_head_zero]

theorem pointAlongLine_one (line : List Point) (sI : ℕ) (sT : ℝ) (eI : ℕ) (eT : ℝ) :
    pointAlongLine line sI sT eI eT 1 = segPoint line eI eT := by
  by_cases h : sI = eI
  · simp [pointAlongLine, pointAlongLineAux, h, lerpP_one]
  · simp only [pointAlongLine, pointAlongLineAux, if_neg h, one_mul]
    have hw := walk_total (segsOf line sI sT eI eT) 0 (segPoint line eI eT)
      (segsOf_ne_nil line sI sT eI eT) (segsOf_chained line sI sT eI eT h)
      (segsOf_getLast?_snd line sI sT eI eT)
    rw [zero_add] at hw
    obtain ⟨r, hr, hr1⟩ := Option.map_eq_some'.mp hw
    rw [hr]
    exact hr1

theorem pointAlongLineArc_eq (line : List Point) (sI : ℕ) (sT : ℝ) (eI : ℕ) (eT : ℝ)
    (p : ℝ) (h : sI ≠ eI) (hp0 : 0 ≤ p) (hp1 : p ≤ 1) :
    pointAlongLineArc line sI sT eI eT p = p * lenSum (segsOf line sI sT eI eT) := by
  simp only [pointAlongLineArc, pointAlongLineAux, if_neg h]
  have hT := lenSum_nonneg (segsOf line sI sT eI eT)
  have h0 : (0:ℝ) ≤ p * lenSum (segsOf line sI sT eI eT) := mul_nonneg hp0 hT
  have h1 : p * lenSum (segsOf line sI sT eI eT) ≤ 0 + lenSum (segsOf line sI sT eI eT) := by
    have := mul_le_mul_of_nonneg_right hp1 hT
    rw [one_mul] at this
    linarith
  obtain ⟨pt, hw⟩ := walk_arc (segsOf line sI sT eI eT)
    (p * lenSum (segsOf line sI sT eI eT)) 0 (segsOf_ne_nil line sI sT eI eT) h0 h1
  rw [hw]

/-- C4: path interpolation at progress 0 returns the start projection's
point and at progress 1 the end projection's point (exactly, hence in
particular approximately); and when both projections lie in the same
segment the result for any progress is the direct linear interpolation
between the two projected points, not touching the path's vertices. -/
theorem c4_interpolation_endpoints (line : List Point) (sI : ℕ) (sT : ℝ) (eI : ℕ) (eT : ℝ) :
    pointAlongLine line sI sT eI eT 0 = segPoint line sI sT ∧
    pointAlongLine line sI sT eI eT 1 = segPoint line eI eT ∧
    (sI = eI → ∀ p, pointAlongLine line sI sT eI eT p =
      lerpP (segPoint line sI sT) (segPoint line eI eT) p) := by
  refine ⟨pointAlongLine_zero line sI sT eI eT, pointAlongLine_one line sI sT eI eT, ?_⟩
  intro h p
  simp [pointAlongLine, pointAlongLineAux, h]

/-- Witness for C4 at a concrete polyline, discharging the same-segment
hypothesis of the third conjunct. -/
theorem c4_interpolation_endpoints_witness :
    pointAlongLine [((0:ℝ), (0:ℝ)), (2, 0)] 0 (1/4) 0 (3/4) (1/2) =
      lerpP (segPoint [((0:ℝ), (0:ℝ)), (2, 0)] 0 (1/4))
        (segPoint [((0:ℝ), (0:ℝ)), (2, 0)] 0 (3/4)) (1/2) :=
  (c4_interpolation_endpoints [((0:ℝ), (0:ℝ)), (2, 0)] 0 (1/4) 0 (3/4)).2.2 rfl (1/2)

/-- C5: the path distance from the start projection to the interpolated
point is monotonically non-decreasing as progress increases from 0 to 1
(the interpolated point never backtracks along the built segment chain).
`pointAlongLineArc` is the arc position of the very point `pointAlongLine`
returns: both are the two components of the same instrumented loop. -/
theorem c5_no_backtracking (line : List Point) (sI : ℕ) (sT : ℝ) (eI : ℕ) (eT : ℝ)
    (p1 p2 : ℝ) (h0 : 0 ≤ p1) (h12 : p1 ≤ p2) (h1 : p2 ≤ 1) :
    pointAlongLineArc line sI sT eI eT p1 ≤ pointAlongLineArc line sI sT eI eT p2 := by
  by_cases h : sI = eI
  · simp only [pointAlongLineArc, pointAlongLineAux, if_pos h]
    exact mul_le_mul_of_nonneg_right h12 (distance_nonneg _ _)
  · rw [pointAlongLineArc_eq line sI sT eI eT p1 h h0 (le_trans h12 h1),
      pointAlongLineArc_eq line sI sT eI eT p2 h (le_trans h0 h12) h1]
    exact mul_le_mul_of_nonneg_right h12 (lenSum_nonneg _)

/-- Witness for C5 at a concrete polyline and progress pair. -/
theorem c5_no_backtracking_witness :
    pointAlongLineArc [((0:ℝ), (0:ℝ)), (1, 0)] 0 0 1 1 0 ≤
      pointAlongLineArc [((0:ℝ), (0:ℝ)), (1, 0)] 0 0 1 1 1 :=
  c5_no_backtracking [((0:ℝ), (0:ℝ)), (1, 0)] 0 0 1 1 0 1 (by norm_num) (by norm_num)
    (by norm_num)

/-! ### The clamped projection minimizes the distance over its segment -/

theorem quad_min_t (L dot C ts u : ℝ) (hL : 0 ≤ L)
    (hts : ts = max 0 (min 1 (if 0 < L then dot / L else 0)))
    (hu0 : 0 ≤ u) (hu1 : u ≤ 1) (hdot0 : L = 0 → dot = 0) :
    L * ts ^ 2 - 2 * dot * ts + C ≤ L * u ^ 2 - 2 * dot * u + C := by
  subst hts
  by_cases hL0 : 0 < L
  · rw [if_pos hL0]
    have hdot : dot = dot / L * L := by field_simp
    rcases le_or_lt (dot / L) 0 with h1 | h1
    · rw [min_eq_right (le_trans h1 zero_le_one), max_eq_left h1]
      nlinarith [mul_nonneg (mul_nonneg (le_of_lt hL0) hu0)
        (show 0 ≤ u - 2 * (dot / L) by linarith)]
    · rcases le_or_lt 1 (dot / L) with h2 | h2
      · rw [min_eq_left h2, max_eq_right zero_le_one]
        nlinarith [mul_nonneg (mul_nonneg (le_of_lt hL0) (show 0 ≤ 1 - u by linarith))
          (show 0 ≤ 2 * (dot / L) - 1 - u by linarith)]
      · rw [min_eq_right (le_of_lt h2), max_eq_right (le_of_lt h1)]
        nlinarith [mul_nonneg (le_of_lt hL0) (sq_nonneg (u - dot / L))]
  · have hL' : L = 0 := le_antisymm (not_lt.mp hL0) hL
    have hd : dot = 0 := hdot0 hL'
    rw [if_neg hL0, hL', hd]
    simp

theorem distance_clampT_le (p a b : Point) (u : ℝ) (hu0 : 0 ≤ u) (hu1 : u ≤ 1) :
    distance p (lerpP a b (clampT p a b)) ≤ distance p (lerpP a b u) := by
  simp only [distance]
  apply Real.sqrt_le_sqrt
  have hQ : ∀ t : ℝ,
      (p.1 - (lerpP a b t).1) * (p.1 - (lerpP a b t).1) +
        (p.2 - (lerpP a b t).2) * (p.2 - (lerpP a b t).2) =
      ((b.1 - a.1) * (b.1 - a.1) + (b.2 - a.2) * (b.2 - a.2)) * t ^ 2 -
        2 * ((p.1 - a.1) * (b.1 - a.1) + (p.2 - a.2) * (b.2 - a.2)) * t +
        ((p.1 - a.1) * (p.1 - a.1) + (p.2 - a.2) * (p.2 - a.2)) := by
    intro t
    simp only [lerpP]
    ring
  rw [hQ, hQ]
  refine quad_min_t _ _ _ _ u (add_nonneg (mul_self_nonneg _) (mul_self_nonneg _)) rfl hu0 hu1 ?_
  intro h0
  have h1 : b.1 - a.1 = 0 := by nlinarith [sq_nonneg (b.1 - a.1), sq_nonneg (b.2 - a.2)]
  have h2 : b.2 - a.2 = 0 := by nlinarith [sq_nonneg (b.1 - a.1), sq_nonneg (b.2 - a.2)]
  rw [h1, h2]
  ring

theorem distance_clampT_le_ends (p a b : Point) :
    distance p (lerpP a b (clampT p a b)) ≤ distance p a ∧
    distance p (lerpP a b (clampT p a b)) ≤ distance p b := by
  constructor
  · have h := distance_clampT_le p a b 0 le_rfl zero_le_one
    rwa [lerpP_zero] at h
  · have h := distance_clampT_le p a b 1 zero_le_one le_rfl
    rwa [lerpP_one] at h

theorem clampT_mem (p a b : Point) : 0 ≤ clampT p a b ∧ clampT p a b ≤ 1 := by
  refine ⟨le_max_left _ _, ?_⟩
  exact max_le zero_le_one (min_le_left _ _)

/-! ### The nearestPointOnLine fold -/

theorem nearStep_good (p : Point) (line : List Point) (st : Option ℝ × NearRes) (i : ℕ)
    (hi : i + 1 < line.length) (hst : goodRes p line st) :
    goodRes p line (nearStep p line st i) := by
  rcases st with ⟨bopt, r⟩
  cases bopt with
  | none => exact ⟨rfl, rfl, rfl, hi⟩
  | some bd =>
    simp only [nearStep]
    split
    · exact ⟨rfl, rfl, rfl, hi⟩
    · exact hst

theorem nearFold_good (p : Point) (line : List Point) :
    ∀ (l : List ℕ) (st : Option ℝ × NearRes), (∀ i ∈ l, i + 1 < line.length) →
      goodRes p line st → goodRes p line (l.foldl (nearStep p line) st) := by
  intro l
  induction l with
  | nil => intro st _ hst; exact hst
  | cons i l ih =>
    intro st hb hst
    exact ih (nearStep p line st i) (fun j hj => hb j (List.mem_cons_of_mem i hj))
      (nearStep_good p line st i (hb i (List.mem_cons_self i l)) hst)

theorem nearStep_some (p : Point) (line : List Point) (st : Option ℝ × NearRes) (i : ℕ) :
    ∃ d, (nearStep p line st i).1 = some d := by
  rcases st with ⟨bopt, r⟩
  cases bopt with
  | none => exact ⟨_, rfl⟩
  | some bd =>
    simp only [nearStep]
    split
    · exact ⟨_, rfl⟩
    · exact ⟨bd, rfl⟩

theorem nearFold_some_of_some (p : Point) (line : List Point) :
    ∀ (l : List ℕ) (st : Option ℝ × NearRes) (d0 : ℝ), st.1 = some d0 →
      ∃ d, (l.foldl (nearStep p line) st).1 = some d := by
  intro l
  induction l with
  | nil => intro st d0 h; exact ⟨d0, h⟩
  | cons i l ih =>
    intro st d0 _
    obtain ⟨d1, hd1⟩ := nearStep_some p line st i
    exact ih (nearStep p line st i) d1 hd1

theorem nearFold_some (p : Point) (line : List Point) (l : List ℕ) (st : Option ℝ × NearRes)
    (hl : l ≠ []) : ∃ d, (l.foldl (nearStep p line) st).1 = some d := by
  cases l with
  | nil => exact absurd rfl hl
  | cons i l =>
    obtain ⟨d1, hd1⟩ := nearStep_some p line st i
    exact nearFold_some_of_some p line l (nearStep p line st i) d1 hd1

theorem nearFold_min (p : Point) (line : List Point) :
    ∀ (l : List ℕ) (st : Option ℝ × NearRes) (bd : ℝ),
      (l.foldl (nearStep p line) st).1 = some bd →
      (∀ i ∈ l, bd ≤ distance p (segProj p line i)) ∧
      (∀ d0, st.1 = some d0 → bd ≤ d0) := by
  intro l
  induction l with
  | nil =>
    intro st bd h
    simp only [List.foldl] at h
    refine ⟨by simp, fun d0 hd0 => ?_⟩
    rw [h] at hd0
    exact le_of_eq (by simpa using hd0)
  | cons i l ih =>
    intro st bd h
    obtain ⟨hrest, hstep⟩ := ih (nearStep p line st i) bd h
    have hstepped : ∀ d1, (nearStep p line st i).1 = some d1 → bd ≤ d1 := hstep
    rcases st with ⟨bopt, r⟩
    cases bopt with
    | none =>
      refine ⟨?_, fun d0 hd0 => by simp at hd0⟩
      intro j hj
      rcases List.mem_cons.mp hj with hj | hj
      · subst hj
        exact hstepped _ rfl
      · exact hrest j hj
    | some d0 =>
      by_cases hlt : distance p (segProj p line i) < d0
      · have h1 : (nearStep p line ⟨some d0, r⟩ i).1 = some (distance p (segProj p line i)) := by
          simp only [nearStep]
          rw [if_pos hlt]
        have hbdi := hstepped _ h1
        refine ⟨?_, fun d1 hd1 => ?_⟩
        · intro j hj
          rcases List.mem_cons.mp hj with hj | hj
          · subst hj; exact hbdi
          · exact hrest j hj
        · have hdd : d0 = d1 := by simpa using hd1
          subst hdd
          exact le_of_lt (lt_of_le_of_lt hbdi hlt)
      · have h1 : (nearStep p line ⟨some d0, r⟩ i).1 = some d0 := by
          simp only [nearStep]
          rw [if_neg hlt]
        have hbd0 := hstepped _ h1
        refine ⟨?_, fun d1 hd1 => ?_⟩
        · intro j hj
          rcases List.mem_cons.mp hj with hj | hj
          · subst hj
            exact le_trans hbd0 (not_lt.mp hlt)
          · exact hrest j hj
        · have hdd : d0 = d1 := by simpa using hd1
          subst hdd
          exact hbd0

theorem goodRes_some (p : Point) (line : List Point) (st : Option ℝ × NearRes) (bd : ℝ)
    (hgood : goodRes p line st) (h : st.1 = some bd) :
    bd = distance p st.2.point ∧
    st.2.point = segProj p line st.2.index ∧
    st.2.t = clampT p (get line st.2.index) (get line (st.2.index + 1)) ∧
    st.2.index + 1 < line.length := by
  rcases st with ⟨bopt, r⟩
  cases bopt with
  | none => simp at h
  | some b =>
    have hb : b = bd := by simpa using h
    subst hb
    exact hgood

/-- C7: for a polyline with at least 2 points, `nearestPointOnLine` returns,
among the clamped orthogonal projections onto each consecutive segment, the
one with minimum distance to the query point; the returned point lies on a
segment of the polyline (its index and clamped parameter are the record's
own fields), and its distance to the query point is at most the distance to
every vertex of the polyline. -/
theorem c7_nearest_point_minimal (p : Point) (line : List Point) (h2 : 2 ≤ line.length) :
    (∀ i, i + 1 < line.length →
      distance p (nearestPointOnLine p line).point ≤ distance p (segProj p line i)) ∧
    (nearestPointOnLine p line).index + 1 < line.length ∧
    0 ≤ (nearestPointOnLine p line).t ∧ (nearestPointOnLine p line).t ≤ 1 ∧
    (nearestPointOnLine p line).point = segProj p line (nearestPointOnLine p line).index ∧
    (∀ j, j < line.length → distance p (nearestPointOnLine p line).point ≤ distance p (get line j)) := by
  simp only [nearestPointOnLine]
  have hne : List.range (line.length - 1) ≠ [] := by
    simp only [ne_eq, List.range_eq_nil]
    omega
  obtain ⟨bd, hbd⟩ := nearFold_some p line (List.range (line.length - 1)) (none, ⟨p, 0, 0⟩) hne
  have hgood := nearFold_good p line (List.range (line.length - 1)) (none, ⟨p, 0, 0⟩)
    (fun i hi => by
      have := List.mem_range.mp hi
      omega) rfl
  have hmin := (nearFold_min p line (List.range (line.length - 1)) (none, ⟨p, 0, 0⟩) bd hbd).1
  obtain ⟨hbdval, hpoint, ht, hidx⟩ := goodRes_some p line _ bd hgood hbd
  have hDmin : ∀ i, i + 1 < line.length →
      distance p ((List.range (line.length - 1)).foldl (nearStep p line)
        (none, ⟨p, 0, 0⟩)).2.point ≤ distance p (segProj p line i) := by
    intro i hi
    have := hmin i (List.mem_range.mpr (by omega))
    rw [hbdval] at this
    exact this
  have hrt := clampT_mem p (get line ((List.range (line.length - 1)).foldl (nearStep p line)
    (none, ⟨p, 0, 0⟩)).2.index) (get line (((List.range (line.length - 1)).foldl (nearStep p line)
    (none, ⟨p, 0, 0⟩)).2.index + 1))
  refine ⟨hDmin, hidx, by rw [ht]; exact hrt.1, by rw [ht]; exact hrt.2, hpoint, ?_⟩
  intro j hj
  by_cases hj1 : j + 1 < line.length
  · refine le_trans (hDmin j hj1) ?_
    exact (distance_clampT_le_ends p (get line j) (get line (j + 1))).1
  · have hseg : line.length - 2 + 1 < line.length := by omega
    have hsegj : line.length - 2 + 1 = j := by omega
    refine le_trans (hDmin (line.length - 2) hseg) ?_
    rw [← hsegj]
    simp only [segProj]
    exact (distance_clampT_le_ends p (get line (line.length - 2))
      (get line (line.length - 2 + 1))).2

/-- Witness for C7 at a concrete polyline, discharging the length hypothesis. -/
theorem c7_nearest_point_minimal_witness :
    (nearestPointOnLine ((0:ℝ), (0:ℝ)) [((0:ℝ), (0:ℝ)), (1, 0)]).index + 1 <
      ([((0:ℝ), (0:ℝ)), (1, 0)] : List Point).length :=
  (c7_nearest_point_minimal ((0:ℝ), (0:ℝ)) [((0:ℝ), (0:ℝ)), (1, 0)] (by simp)).2.1

/-! ### The track-constrained path resolver -/

theorem findStep_ok (s e : Point) (b0 : Option BestInfo) (P : Polyline)
    (h : okB s e b0) : okB s e (findStep s e b0 P) := by
  by_cases hp : 2 ≤ P.length
  · cases b0 with
    | none =>
      simp only [findStep, if_pos hp]
      rfl
    | some bv =>
      simp only [findStep, if_pos hp]
      split
      · rfl
      · exact h
  · simpa only [findStep, if_neg hp] using h

theorem findStep_some_of_some (s e : Point) (bv : BestInfo) (P : Polyline) :
    ∃ b2, findStep s e (some bv) P = some b2 := by
  by_cases hp : 2 ≤ P.length
  · simp only [findStep, if_pos hp]
    split
    · exact ⟨_, rfl⟩
    · exact ⟨bv, rfl⟩
  · exact ⟨bv, by simp only [findStep, if_neg hp]⟩

theorem findFold_ne_none (s e : Point) :
    ∀ (paths : List Polyline) (bv : BestInfo),
      paths.foldl (findStep s e) (some bv) ≠ none := by
  intro paths
  induction paths with
  | nil => intro bv h; simp at h
  | cons P rest ih =>
    intro bv
    obtain ⟨b2, hb2⟩ := findStep_some_of_some s e bv P
    simp only [List.foldl, hb2]
    exact ih b2

theorem findFold_none_iff (s e : Point) :
    ∀ (paths : List Polyline),
      paths.foldl (findStep s e) none = none ↔
        paths.filter (fun P => decide (2 ≤ P.length)) = [] := by
  intro paths
  induction paths with
  | nil => simp
  | cons P rest ih =>
    by_cases hp : 2 ≤ P.length
    · constructor
      · intro h
        have hstep : findStep s e none P = some (mkBest s e P) := by
          simp only [findStep, if_pos hp]
          rfl
        simp only [List.foldl, hstep] at h
        exact absurd h (findFold_ne_none s e rest (mkBest s e P))
      · intro h
        rw [List.filter_cons_of_pos (by simpa using hp)] at h
        simp at h
    · have hstep : findStep s e none P = none := by
        simp only [findStep, if_neg hp]
      simp only [List.foldl, hstep]
      rw [List.filter_cons_of_neg (by simpa using hp)]
      exact ih

theorem findFold_spec (s e : Point) :
    ∀ (paths : List Polyline) (b0 : Option BestInfo), okB s e b0 →
      okB s e (paths.foldl (findStep s e) b0) ∧
      ∀ b, paths.foldl (findStep s e) b0 = some b →
        (∀ P ∈ paths, 2 ≤ P.length → pathScore s e b.path ≤ pathScore s e P) ∧
        (∀ bv, b0 = some bv → pathScore s e b.path ≤ pathScore s e bv.path) ∧
        (b0 = some b ∨ (b.path ∈ paths ∧ 2 ≤ b.path.length)) := by
  intro paths
  induction paths with
  | nil =>
    intro b0 h0
    refine ⟨h0, ?_⟩
    intro b hb
    simp only [List.foldl] at hb
    refine ⟨by simp, fun bv hbv => ?_, Or.inl hb⟩
    rw [hb] at hbv
    have : b = bv := by simpa using hbv
    rw [this]
  | cons P rest ih =>
    intro b0 h0
    simp only [List.foldl]
    have h1 : okB s e (findStep s e b0 P) := findStep_ok s e b0 P h0
    obtain ⟨hokf, hrest⟩ := ih (findStep s e b0 P) h1
    refine ⟨hokf, ?_⟩
    intro b hb
    obtain ⟨hminrest, hminb1, hmem⟩ := hrest b hb
    by_cases hp : 2 ≤ P.length
    · cases b0 with
      | none =>
        have hstep : findStep s e none P = some (mkBest s e P) := by
          simp only [findStep, if_pos hp]
          rfl
        rw [hstep] at hminb1 hmem
        have hP : pathScore s e b.path ≤ pathScore s e P := hminb1 (mkBest s e P) rfl
        refine ⟨?_, fun bv hbv => by simp at hbv, ?_⟩
        · intro Q hQ hQl
          rcases List.mem_cons.mp hQ with hQ | hQ
          · rw [hQ]; exact hP
          · exact hminrest Q hQ hQl
        · rcases hmem with hmem | hmem
          · have hbP : b = mkBest s e P := by simpa using hmem.symm
            refine Or.inr ⟨?_, ?_⟩
            · rw [hbP]; exact List.mem_cons_self P rest
            · rw [hbP]; exact hp
          · exact Or.inr ⟨List.mem_cons_of_mem P hmem.1, hmem.2⟩
      | some bv0 =>
        have hscore0 : bv0.sDist + bv0.eDist = pathScore s e bv0.path := by
          have hok : bv0 = mkBest s e bv0.path := h0
          rw [hok]
          rfl
        by_cases hcond : distance s (nearestPointOnLine s P).point +
            distance e (nearestPointOnLine e P).point < bv0.sDist + bv0.eDist
        · have hconds : pathScore s e P < bv0.sDist + bv0.eDist := hcond
          have hstep : findStep s e (some bv0) P = some (mkBest s e P) := by
            simp only [findStep, if_pos hp]
            rw [if_pos hcond]
            rfl
          rw [hstep] at hminb1 hmem
          have hP : pathScore s e b.path ≤ pathScore s e P := hminb1 (mkBest s e P) rfl
          refine ⟨?_, fun bv hbv => ?_, ?_⟩
          · intro Q hQ hQl
            rcases List.mem_cons.mp hQ with hQ | hQ
            · rw [hQ]; exact hP
            · exact hminrest Q hQ hQl
          · have hbvv : bv = bv0 := by simpa using hbv.symm
            rw [hbvv, ← hscore0]
            exact le_of_lt (lt_of_le_of_lt hP hconds)
          · rcases hmem with hmem | hmem
            · have hbP : b = mkBest s e P := by simpa using hmem.symm
              refine Or.inr ⟨?_, ?_⟩
              · rw [hbP]; exact List.mem_cons_self P rest
              · rw [hbP]; exact hp
            · exact Or.inr ⟨List.mem_cons_of_mem P hmem.1, hmem.2⟩
        · have hconds : ¬ pathScore s e P < bv0.sDist + bv0.eDist := hcond
          have hstep : findStep s e (some bv0) P = some bv0 := by
            simp only [findStep, if_pos hp]
            rw [if_neg hcond]
          rw [hstep] at hminb1 hmem
          have hbv0 : pathScore s e b.path ≤ pathScore s e bv0.path :=
            hminb1 bv0 rfl
          refine ⟨?_, fun bv hbv => ?_, ?_⟩
          · intro Q hQ hQl
            rcases List.mem_cons.mp hQ with hQ | hQ
            · rw [hQ]
              refine le_trans hbv0 ?_
              rw [← hscore0]
              exact not_lt.mp hconds
            · exact hminrest Q hQ hQl
          · have hbvv : bv = bv0 := by simpa using hbv.symm
            rw [hbvv]
            exact hbv0
          · rcases hmem with hmem | hmem
            · exact Or.inl hmem
            · exact Or.inr ⟨List.mem_cons_of_mem P hmem.1, hmem.2⟩
    · have hstep : findStep s e b0 P = b0 := by
        simp only [findStep, if_neg hp]
      rw [hstep] at hminb1 hmem
      refine ⟨?_, hminb1, ?_⟩
      · intro Q hQ hQl
        rcases List.mem_cons.mp hQ with hQ | hQ
        · rw [hQ] at hQl; exact absurd hQl hp
        · exact hminrest Q hQ hQl
      · rcases hmem with hmem | hmem
        · exact Or.inl hmem
        · exact Or.inr ⟨List.mem_cons_of_mem P hmem.1, hmem.2⟩

theorem findPath_inv (rp : RoutePaths) (routeId : String) (s e : Point) (r : PathInfo)
    (h : findPathBetweenPoints rp routeId s e = some r) :
    ∃ b, selectBest s e ((lookupA rp routeId).getD []) = some b ∧
      b.sDist < 0.005 ∧ b.eDist < 0.005 ∧
      r.path = b.path ∧ r.startIndex = b.sIdx ∧ r.startT = b.sT ∧
      r.endIndex = b.eIdx ∧ r.endT = b.eT := by
  simp only [findPathBetweenPoints] at h
  split at h
  · rename_i b hsel
    split at h
    · rename_i hth
      have hr : r = ⟨b.path, b.sIdx, b.sT, b.eIdx, b.eT⟩ := by simpa using h.symm
      exact ⟨b, hsel, hth.1, hth.2, by rw [hr], by rw [hr], by rw [hr], by rw [hr], by rw [hr]⟩
    · simp at h
  · simp at h

/-- C3: the path resolver scores each candidate polyline with at least 2
points by the sum of the two endpoints' projection distances, keeps the
minimum-score polyline, and returns it (with both projections) precisely
when both individual projection distances are below the fixed 0.005
proximity threshold; otherwise it returns none. -/
theorem c3_resolver_min_score_threshold (rp : RoutePaths) (routeId : String) (s e : Point) :
    (∀ r, findPathBetweenPoints rp routeId s e = some r →
      r.path ∈ candPaths rp routeId ∧
      (∀ P ∈ candPaths rp routeId, pathScore s e r.path ≤ pathScore s e P) ∧
      projDist s r.path < 0.005 ∧ projDist e r.path < 0.005 ∧
      r.startIndex = (nearestPointOnLine s r.path).index ∧
      r.startT = (nearestPointOnLine s r.path).t ∧
      r.endIndex = (nearestPointOnLine e r.path).index ∧
      r.endT = (nearestPointOnLine e r.path).t) ∧
    (∀ b, selectBest s e ((lookupA rp routeId).getD []) = some b →
      ((projDist s b.path < 0.005 ∧ projDist e b.path < 0.005) →
        findPathBetweenPoints rp routeId s e = some ⟨b.path, b.sIdx, b.sT, b.eIdx, b.eT⟩) ∧
      (¬ (projDist s b.path < 0.005 ∧ projDist e b.path < 0.005) →
        findPathBetweenPoints rp routeId s e = none)) ∧
    (selectBest s e ((lookupA rp routeId).getD []) = none →
      findPathBetweenPoints rp routeId s e = none ∧ candPaths rp routeId = []) := by
  refine ⟨?_, ?_, ?_⟩
  · intro r hr
    obtain ⟨b, hsel, hs, he, hpath, hsi, hst, hei, het⟩ :=
      findPath_inv rp routeId s e r hr
    have hfold : ((lookupA rp routeId).getD []).foldl (findStep s e) none = some b := hsel
    have hok := (findFold_spec s e ((lookupA rp routeId).getD []) none trivial).1
    rw [hfold] at hok
    have hokb : b = mkBest s e b.path := hok
    obtain ⟨hmin, _, hmem⟩ :=
      (findFold_spec s e ((lookupA rp routeId).getD []) none trivial).2 b hfold
    rcases hmem with hbad | ⟨hmemp, hlen⟩
    · exact absurd hbad (by simp)
    rw [hokb] at hs he
    refine ⟨?_, ?_, ?_, ?_, ?_, ?_, ?_, ?_⟩
    · rw [hpath]
      exact List.mem_filter.mpr ⟨hmemp, by simpa using hlen⟩
    · intro P hP
      obtain ⟨hPmem, hPlen⟩ := List.mem_filter.mp hP
      rw [hpath]
      exact hmin P hPmem (by simpa using hPlen)
    · rw [hpath]; exact hs
    · rw [hpath]; exact he
    · rw [hsi, hpath]
      exact congrArg BestInfo.sIdx hokb
    · rw [hst, hpath]
      exact congrArg BestInfo.sT hokb
    · rw [hei, hpath]
      exact congrArg BestInfo.eIdx hokb
    · rw [het, hpath]
      exact congrArg BestInfo.eT hokb
  · intro b hsel
    have hfold : ((lookupA rp routeId).getD []).foldl (findStep s e) none = some b := hsel
    have hok := (findFold_spec s e ((lookupA rp routeId).getD []) none trivial).1
    rw [hfold] at hok
    have hokb : b = mkBest s e b.path := hok
    have hred : findPathBetweenPoints rp routeId s e =
        if b.sDist < 0.005 ∧ b.eDist < 0.005 then
          some ⟨b.path, b.sIdx, b.sT, b.eIdx, b.eT⟩
        else none := by
      simp only [findPathBetweenPoints]
      rw [hsel]
    constructor
    · intro hboth
      rw [hred, if_pos ?_]
      constructor
      · rw [hokb]; exact hboth.1
      · rw [hokb]; exact hboth.2
    · intro hnot
      rw [hred, if_neg ?_]
      intro hc
      rw [hokb] at hc
      exact hnot ⟨hc.1, hc.2⟩
  · intro hnone
    have hfold : ((lookupA rp routeId).getD []).foldl (findStep s e) none = none := hnone
    refine ⟨?_, ?_⟩
    · simp only [findPathBetweenPoints]
      rw [hnone]
    · exact (findFold_none_iff s e ((lookupA rp routeId).getD [])).mp hfold

/-- Witness for C3, discharging the empty-candidate hypothesis of the third
conjunct at a concrete empty route index. -/
theorem c3_resolver_min_score_threshold_witness :
    findPathBetweenPoints [] "L" ((0:ℝ), (0:ℝ)) ((1:ℝ), (0:ℝ)) = none ∧
      candPaths [] "L" = [] :=
  (c3_resolver_min_score_threshold [] "L" ((0:ℝ), (0:ℝ)) ((1:ℝ), (0:ℝ))).2.2 rfl

/-- C9: projection degrades only on polylines with fewer than 2 points
(returning the untouched initial record), on longer polylines it always
returns a valid on-segment projection, and the resolver skips degenerate
polylines, so a resolved path (the only kind handed to interpolation) always
has at least 2 points. -/
theorem c9_degenerate_polyline_guard (p : Point) (line : List Point) (rp : RoutePaths)
    (routeId : String) (s e : Point) :
    (line.length < 2 → nearestPointOnLine p line = ⟨p, 0, 0⟩) ∧
    (2 ≤ line.length → (nearestPointOnLine p line).index + 1 < line.length ∧
      (nearestPointOnLine p line).point = segProj p line (nearestPointOnLine p line).index) ∧
    (∀ r, findPathBetweenPoints rp routeId s e = some r → 2 ≤ r.path.length) := by
  refine ⟨?_, ?_, ?_⟩
  · intro h
    have h0 : line.length - 1 = 0 := by omega
    simp [nearestPointOnLine, h0]
  · intro h2
    simp only [nearestPointOnLine]
    have hne : List.range (line.length - 1) ≠ [] := by
      simp only [ne_eq, List.range_eq_nil]
      omega
    obtain ⟨bd, hbd⟩ := nearFold_some p line (List.range (line.length - 1)) (none, ⟨p, 0, 0⟩) hne
    have hgood := nearFold_good p line (List.range (line.length - 1)) (none, ⟨p, 0, 0⟩)
      (fun i hi => by
        have := List.mem_range.mp hi
        omega) rfl
    obtain ⟨_, hpoint, _, hidx⟩ := goodRes_some p line _ bd hgood hbd
    exact ⟨hidx, hpoint⟩
  · intro r hr
    obtain ⟨b, hsel, _, _, hpath, _⟩ := findPath_inv rp routeId s e r hr
    have hfold : ((lookupA rp routeId).getD []).foldl (findStep s e) none = some b := hsel
    obtain ⟨_, _, hmem⟩ :=
      (findFold_spec s e ((lookupA rp routeId).getD []) none trivial).2 b hfold
    rcases hmem with hbad | ⟨_, hlen⟩
    · exact absurd hbad (by simp)
    · rw [hpath]; exact hlen

/-- Witness for C9, discharging the degenerate-length hypothesis at an empty
polyline. -/
theorem c9_degenerate_polyline_guard_witness :
    nearestPointOnLine ((0:ℝ), (0:ℝ)) [] = ⟨((0:ℝ), (0:ℝ)), 0, 0⟩ :=
  (c9_degenerate_polyline_guard ((0:ℝ), (0:ℝ)) [] [] "L" ((0:ℝ), (0:ℝ))
    ((1:ℝ), (0:ℝ))).1 (by simp)

/-! ### Association-list lookup lemmas -/

theorem lookupA_cons {α : Type} (a : String × α) (m : List (String × α)) (k : String) :
    lookupA (a :: m) k = if a.1 = k then some a.2 else lookupA m k := by
  by_cases h : a.1 = k
  · rw [if_pos h]
    unfold lookupA
    rw [List.find?_cons_of_pos _ (by simpa using h)]
    simp
  · rw [if_neg h]
    unfold lookupA
    rw [List.find?_cons_of_neg _ (by simpa using h)]

theorem lookupA_filter {α : Type} (m : List (String × α)) (p : String × α → Bool)
    (q : String → Bool) (hpq : ∀ en, p en = q en.1) (k : String) :
    lookupA (m.filter p) k = if q k then lookupA m k else none := by
  induction m with
  | nil => simp [lookupA]
  | cons a m ih =>
    by_cases hq : p a = true
    · rw [List.filter_cons_of_pos hq]
      rw [lookupA_cons, lookupA_cons]
      by_cases hk : a.1 = k
      · have hqk : q k = true := by rw [← hk, ← hpq]; exact hq
        simp [hk, hqk]
      · rw [if_neg hk, if_neg hk]
        exact ih
    · rw [List.filter_cons_of_neg (by simpa using hq)]
      rw [ih, lookupA_cons]
      by_cases hk : a.1 = k
      · have hqk : q k = false := by rw [← hk, ← hpq]; simpa using hq
        simp [hqk]
      · rw [if_neg hk]

theorem lookupA_setA_self {α : Type} (m : List (String × α)) (k : String) (v : α) :
    lookupA (setA m k v) k = some v := by
  unfold setA
  rw [lookupA_cons]
  simp

theorem lookupA_setA_ne {α : Type} (m : List (String × α)) (k : String) (v : α)
    (k' : String) (h : k' ≠ k) : lookupA (setA m k v) k' = lookupA m k' := by
  unfold setA
  rw [lookupA_cons, if_neg (fun he => h he.symm)]
  rw [lookupA_filter m _ (fun x => x != k) (fun en => rfl) k']
  rw [if_pos (by simpa using h)]

theorem lookupA_delA_self {α : Type} (m : List (String × α)) (k : String) :
    lookupA (delA m k) k = none := by
  unfold delA
  rw [lookupA_filter m _ (fun x => x != k) (fun en => rfl) k]
  simp

theorem lookupA_delA_ne {α : Type} (m : List (String × α)) (k k' : String) (h : k' ≠ k) :
    lookupA (delA m k) k' = lookupA m k' := by
  unfold delA
  rw [lookupA_filter m _ (fun x => x != k) (fun en => rfl) k']
  rw [if_pos (by simpa using h)]

theorem lookupA_eq_none_iff_any {α : Type} (m : List (String × α)) (k : String) :
    lookupA m k = none ↔ m.any (fun en => en.1 == k) = false := by
  induction m with
  | nil => simp [lookupA]
  | cons a m ih =>
    rw [lookupA_cons]
    by_cases h : a.1 = k
    · simp [h]
    · simp [h, ih]

theorem cleanup_anims_lookup (st : AnimState) (ids : List String) (k : String) :
    lookupA (cleanup st ids).trainAnimations k =
      if ids.contains k then lookupA st.trainAnimations k else none := by
  unfold cleanup
  exact lookupA_filter _ _ (fun x => ids.contains x) (fun en => rfl) k

theorem cleanup_pos_lookup (st : AnimState) (ids : List String) (k : String) :
    lookupA (cleanup st ids).currentPositions k =
      if ids.contains k || !(st.trainAnimations.any (fun f => f.1 == k))
      then lookupA st.currentPositions k else none := by
  unfold cleanup
  exact lookupA_filter _ _
    (fun x => ids.contains x || !(st.trainAnimations.any (fun f => f.1 == x)))
    (fun en => rfl) k

/-! ### Reconciliation equations -/

theorem reconcileCore_snap (rp : RoutePaths) (now : ℝ) (st : AnimState) (train : Train)
    (hd : 0.02 < distance (computeStartPos st train now) (trainPos train)) :
    reconcileCore rp now st train =
      ⟨delA st.trainAnimations train.id,
        setA st.currentPositions train.id (trainPos train)⟩ := by
  simp only [reconcileCore]
  rw [if_pos hd]

theorem reconcileCore_anim (rp : RoutePaths) (now : ℝ) (st : AnimState) (train : Train)
    (hd1 : ¬ 0.02 < distance (computeStartPos st train now) (trainPos train))
    (hd2 : 0.00001 < distance (computeStartPos st train now) (trainPos train)) :
    reconcileCore rp now st train =
      ⟨setA st.trainAnimations train.id
          (TrainAnimation.mk (computeStartPos st train now) (trainPos train) now
            train.routeId
            (findPathBetweenPoints rp train.routeId (computeStartPos st train now)
              (trainPos train))),
        st.currentPositions⟩ := by
  simp only [reconcileCore]
  rw [if_neg hd1, if_pos hd2]
  split
  · rename_i pinfo hfp
    rw [hfp]
  · rename_i hfp
    rw [hfp]

theorem reconcileCore_skip (rp : RoutePaths) (now : ℝ) (st : AnimState) (train : Train)
    (hd2 : ¬ 0.00001 < distance (computeStartPos st train now) (trainPos train)) :
    reconcileCore rp now st train = st := by
  have hd1 : ¬ 0.02 < distance (computeStartPos st train now) (trainPos train) := by
    intro h
    exact hd2 (by linarith)
  simp only [reconcileCore]
  rw [if_neg hd1, if_neg hd2]

theorem reconcileTrain_eq_core (rp : RoutePaths) (now : ℝ) (st : AnimState) (train : Train)
    (h : ¬ epsClose st train) :
    reconcileTrain rp now st train = reconcileCore rp now st train := by
  simp only [reconcileTrain]
  split
  · rename_i c hc
    rw [if_neg]
    intro habs
    exact h ⟨c, hc, habs.1, habs.2⟩
  · rfl

theorem reconcileTrain_eq_self (rp : RoutePaths) (now : ℝ) (st : AnimState) (train : Train)
    (h : epsClose st train) : reconcileTrain rp now st train = st := by
  obtain ⟨c, hc, h1, h2⟩ := h
  simp only [reconcileTrain, hc]
  rw [if_pos ⟨h1, h2⟩]

theorem frameCoords_no_anim (rp : RoutePaths) (st : AnimState) (train : Train) (now : ℝ)
    (h : lookupA st.trainAnimations train.id = none) :
    frameCoords rp st train now = (lookupA st.currentPositions train.id).getD (trainPos train) := by
  simp only [frameCoords, animateStep, h]

/-! ### The snap invariant -/

theorem animInv_core (rp : RoutePaths) (now : ℝ) (st : AnimState) (train : Train)
    (h : AnimInv st) : AnimInv (reconcileCore rp now st train) := by
  intro k a ha
  by_cases hd1 : 0.02 < distance (computeStartPos st train now) (trainPos train)
  · rw [reconcileCore_snap rp now st train hd1] at ha
    by_cases hk : k = train.id
    · rw [hk] at ha
      simp only [lookupA_delA_self] at ha
      exact absurd ha (by simp)
    · simp only [lookupA_delA_ne st.trainAnimations train.id k hk] at ha
      exact h k a ha
  · by_cases hd2 : 0.00001 < distance (computeStartPos st train now) (trainPos train)
    · rw [reconcileCore_anim rp now st train hd1 hd2] at ha
      by_cases hk : k = train.id
      · rw [hk] at ha
        simp only [lookupA_setA_self] at ha
        have haa : a = TrainAnimation.mk (computeStartPos st train now) (trainPos train)
            now train.routeId
            (findPathBetweenPoints rp train.routeId (computeStartPos st train now)
              (trainPos train)) := by
          simpa using ha.symm
        rw [haa]
        exact not_lt.mp hd1
      · simp only [lookupA_setA_ne st.trainAnimations train.id _ k hk] at ha
        exact h k a ha
    · rw [reconcileCore_skip rp now st train hd2] at ha
      exact h k a ha

theorem animInv_train (rp : RoutePaths) (now : ℝ) (st : AnimState) (train : Train)
    (h : AnimInv st) : AnimInv (reconcileTrain rp now st train) := by
  by_cases heps : epsClose st train
  · rw [reconcileTrain_eq_self rp now st train heps]
    exact h
  · rw [reconcileTrain_eq_core rp now st train heps]
    exact animInv_core rp now st train h

theorem animInv_fold (rp : RoutePaths) (now : ℝ) :
    ∀ (trains : List Train) (st : AnimState), AnimInv st →
      AnimInv (trains.foldl (reconcileTrain rp now) st) := by
  intro trains
  induction trains with
  | nil => intro st h; exact h
  | cons t rest ih =>
    intro st h
    exact ih (reconcileTrain rp now st t) (animInv_train rp now st t h)

theorem animInv_cleanup (st : AnimState) (ids : List String) (h : AnimInv st) :
    AnimInv (cleanup st ids) := by
  intro k a ha
  rw [cleanup_anims_lookup] at ha
  split at ha
  · exact h k a ha
  · simp at ha

/-- C1: whenever reconciliation reaches the distance computation (the
epsilon early-return does not fire) and the straight-line distance from the
entity's current displayed position to the new snapshot position exceeds the
0.02 snap threshold, the cache entry is set to the new position, the
Animation record is deleted, and the next frame renders the new position
immediately (teleport); and reconciliation over any batch preserves the
invariant that no live Animation record has displacement over 0.02. -/
theorem c1_snap_teleport_invariant :
    (∀ (rp : RoutePaths) (now : ℝ) (st : AnimState) (train : Train),
      ¬ epsClose st train →
      0.02 < distance (computeStartPos st train now) (trainPos train) →
      lookupA (reconcileTrain rp now st train).currentPositions train.id =
        some (trainPos train) ∧
      lookupA (reconcileTrain rp now st train).trainAnimations train.id = none ∧
      ∀ (rp2 : RoutePaths) (t : ℝ),
        frameCoords rp2 (reconcileTrain rp now st train) train t = trainPos train) ∧
    (∀ (rp : RoutePaths) (now : ℝ) (st : AnimState) (trains : List Train),
      AnimInv st → AnimInv (reconcileBatch rp now st trains)) := by
  constructor
  · intro rp now st train hne hd
    rw [reconcileTrain_eq_core rp now st train hne, reconcileCore_snap rp now st train hd]
    refine ⟨lookupA_setA_self _ _ _, lookupA_delA_self _ _, ?_⟩
    intro rp2 t
    rw [frameCoords_no_anim rp2 _ train t (lookupA_delA_self _ _)]
    simp [lookupA_setA_self]
  · intro rp now st trains h
    exact animInv_cleanup _ _ (animInv_fold rp now trains st h)

/-- Witness for C1 at the spec's literal coordinate pair: old
(-73.98, 40.75), new (-73.5, 40.3). -/
theorem c1_snap_teleport_invariant_witness :
    ¬ epsClose stOld trainJump ∧
    0.02 < distance (computeStartPos stOld trainJump 0) (trainPos trainJump) ∧
    lookupA (reconcileTrain [] 0 stOld trainJump).currentPositions trainJump.id =
      some (trainPos trainJump) ∧
    lookupA (reconcileTrain [] 0 stOld trainJump).trainAnimations trainJump.id = none ∧
    frameCoords [] (reconcileTrain [] 0 stOld trainJump) trainJump 5 = trainPos trainJump := by
  have h1 : ¬ epsClose stOld trainJump := by
    rintro ⟨c, hc, hx, _⟩
    have hcc : lookupA stOld.currentPositions trainJump.id =
        some ((((-73.98 : ℝ)), ((40.75 : ℝ))) : Point) := rfl
    rw [hcc] at hc
    have hceq : c = ((((-73.98 : ℝ)), ((40.75 : ℝ))) : Point) := by simpa using hc.symm
    subst hceq
    rw [abs_sub_lt_iff] at hx
    have hx2 := hx.2
    simp only [trainJump] at hx2
    norm_num at hx2
  have hsp : computeStartPos stOld trainJump 0 = ((((-73.98 : ℝ)), ((40.75 : ℝ))) : Point) := rfl
  have htp : trainPos trainJump = ((((-73.5 : ℝ)), ((40.3 : ℝ))) : Point) := rfl
  have h2 : 0.02 < distance (computeStartPos stOld trainJump 0) (trainPos trainJump) := by
    rw [hsp, htp]
    simp only [distance]
    have harg : (((((-73.98 : ℝ)), ((40.75 : ℝ))) : Point).1 - ((((-73.5 : ℝ)), ((40.3 : ℝ))) : Point).1) *
          (((((-73.98 : ℝ)), ((40.75 : ℝ))) : Point).1 - ((((-73.5 : ℝ)), ((40.3 : ℝ))) : Point).1) +
          (((((-73.98 : ℝ)), ((40.75 : ℝ))) : Point).2 - ((((-73.5 : ℝ)), ((40.3 : ℝ))) : Point).2) *
          (((((-73.98 : ℝ)), ((40.75 : ℝ))) : Point).2 - ((((-73.5 : ℝ)), ((40.3 : ℝ))) : Point).2) =
          (0.4329 : ℝ) := by norm_num
    rw [harg]
    exact Real.lt_sqrt_of_sq_lt (by norm_num)
  obtain ⟨ha, hb, hf⟩ := c1_snap_teleport_invariant.1 [] 0 stOld trainJump h1 h2
  exact ⟨h1, h2, ha, hb, hf [] 5⟩

/-- C2: for an entity with an existing Animation record, a snapshot whose
target is within epsilon (distance below 0.0000005) of the computed current
displayed position leaves the state untouched: no Animation record is
created or replaced (the 1e-5 lower threshold already rejects the change,
whether or not the cache early-return fires). -/
theorem c2_epsilon_noop (rp : RoutePaths) (now : ℝ) (st : AnimState) (train : Train)
    (anim : TrainAnimation) (hanim : lookupA st.trainAnimations train.id = some anim)
    (hdist : distance (computeStartPos st train now) (trainPos train) < 0.0000005) :
    reconcileTrain rp now st train = st := by
  by_cases heps : epsClose st train
  · exact reconcileTrain_eq_self rp now st train heps
  · rw [reconcileTrain_eq_core rp now st train heps]
    exact reconcileCore_skip rp now st train
      (not_lt.mpr (le_of_lt (lt_trans hdist (by norm_num))))

/-- Witness for C2: a live animation resting at the origin and a repeated
identical snapshot. -/
theorem c2_epsilon_noop_witness :
    lookupA stX.trainAnimations trainX.id = some animX ∧
    distance (computeStartPos stX trainX 0) (trainPos trainX) < 0.0000005 ∧
    reconcileTrain [] 0 stX trainX = stX := by
  have h1 : lookupA stX.trainAnimations trainX.id = some animX := rfl
  have hsp : computeStartPos stX trainX 0 =
      ((0 : ℝ) + ((0 : ℝ) - 0) * easeOutCubic (min ((0 - 0) / ANIMATION_DURATION) 1),
       (0 : ℝ) + ((0 : ℝ) - 0) * easeOutCubic (min ((0 - 0) / ANIMATION_DURATION) 1)) := rfl
  have h2 : distance (computeStartPos stX trainX 0) (trainPos trainX) < 0.0000005 := by
    rw [hsp]
    have htp : trainPos trainX = (((0 : ℝ)), ((0 : ℝ))) := rfl
    rw [htp]
    simp only [distance]
    norm_num [Real.sqrt_zero]
  exact ⟨h1, h2, c2_epsilon_noop [] 0 stX trainX animX h1 h2⟩

/-! ### Untouched keys and the cleanup loop -/

theorem reconcileCore_other (rp : RoutePaths) (now : ℝ) (st : AnimState) (train : Train)
    (k : String) (h : k ≠ train.id) :
    lookupA (reconcileCore rp now st train).trainAnimations k =
      lookupA st.trainAnimations k ∧
    lookupA (reconcileCore rp now st train).currentPositions k =
      lookupA st.currentPositions k := by
  by_cases hd1 : 0.02 < distance (computeStartPos st train now) (trainPos train)
  · rw [reconcileCore_snap rp now st train hd1]
    exact ⟨lookupA_delA_ne _ _ _ h, lookupA_setA_ne _ _ _ _ h⟩
  · by_cases hd2 : 0.00001 < distance (computeStartPos st train now) (trainPos train)
    · rw [reconcileCore_anim rp now st train hd1 hd2]
      exact ⟨lookupA_setA_ne _ _ _ _ h, rfl⟩
    · rw [reconcileCore_skip rp now st train hd2]
      exact ⟨rfl, rfl⟩

theorem reconcileTrain_other (rp : RoutePaths) (now : ℝ) (st : AnimState) (train : Train)
    (k : String) (h : k ≠ train.id) :
    lookupA (reconcileTrain rp now st train).trainAnimations k =
      lookupA st.trainAnimations k ∧
    lookupA (reconcileTrain rp now st train).currentPositions k =
      lookupA st.currentPositions k := by
  by_cases heps : epsClose st train
  · rw [reconcileTrain_eq_self rp now st train heps]
    exact ⟨rfl, rfl⟩
  · rw [reconcileTrain_eq_core rp now st train heps]
    exact reconcileCore_other rp now st train k h

theorem reconcileFold_other (rp : RoutePaths) (now : ℝ) :
    ∀ (trains : List Train) (st : AnimState) (k : String), (∀ t ∈ trains, k ≠ t.id) →
      lookupA (trains.foldl (reconcileTrain rp now) st).trainAnimations k =
        lookupA st.trainAnimations k ∧
      lookupA (trains.foldl (reconcileTrain rp now) st).currentPositions k =
        lookupA st.currentPositions k := by
  intro trains
  induction trains with
  | nil => intro st k _; exact ⟨rfl, rfl⟩
  | cons t rest ih =>
    intro st k hk
    have hstep := reconcileTrain_other rp now st t k (hk t (List.mem_cons_self t rest))
    have hrest := ih (reconcileTrain rp now st t) k
      (fun t2 ht2 => hk t2 (List.mem_cons_of_mem t ht2))
    exact ⟨hrest.1.trans hstep.1, hrest.2.trans hstep.2⟩

theorem animateFrame_ids (rp : RoutePaths) (now : ℝ) :
    ∀ (trains : List Train) (st : AnimState),
      (animateFrame rp now st trains).2.map RenderRecord.id = trains.map Train.id := by
  intro trains
  induction trains with
  | nil => intro st; rfl
  | cons t rest ih =>
    intro st
    simp only [animateFrame, List.map_cons]
    rw [ih]
    rfl

/-- Counterexample to C8 as stated: entity X has a cache entry and no
Animation record; after reconciling the empty batch the cleanup loop (which
iterates over animation keys only) leaves the cache entry in place. -/
theorem c8_counterexample :
    ("X" ∉ ([] : List Train).map Train.id) ∧
    lookupA (reconcileBatch [] 0 stStale []).currentPositions "X" =
      some (((0 : ℝ)), ((0 : ℝ))) := by
  constructor
  · simp
  · rfl

/-- C8 amended: after reconciliation over a batch, an entity id absent from
the batch has no Animation record and does not appear in the next frame's
render record list; its cache entry is removed only when the id had an
Animation record — for an absent id with no Animation record the cache
entry is left exactly as it was (it survives the cleanup loop). -/
theorem c8_absent_entities (rp : RoutePaths) (now : ℝ) (st : AnimState)
    (trains : List Train) (k : String) (hk : k ∉ trains.map Train.id) :
    lookupA (reconcileBatch rp now st trains).trainAnimations k = none ∧
    (lookupA st.trainAnimations k ≠ none →
      lookupA (reconcileBatch rp now st trains).currentPositions k = none) ∧
    (lookupA st.trainAnimations k = none →
      lookupA (reconcileBatch rp now st trains).currentPositions k =
        lookupA st.currentPositions k) ∧
    ∀ (rp2 : RoutePaths) (now2 : ℝ) (st2 : AnimState),
      k ∉ ((animateFrame rp2 now2 st2 trains).2.map RenderRecord.id) := by
  have hkid : ∀ t ∈ trains, k ≠ t.id := by
    intro t ht he
    exact hk (List.mem_map.mpr ⟨t, ht, he.symm⟩)
  have hcont : (trains.map Train.id).contains k = false := by
    simpa using hk
  have hfold := reconcileFold_other rp now trains st k hkid
  refine ⟨?_, ?_, ?_, ?_⟩
  · unfold reconcileBatch
    rw [cleanup_anims_lookup, hcont]
    simp
  · intro hnone
    unfold reconcileBatch
    rw [cleanup_pos_lookup, hcont]
    have hany : ((trains.foldl (reconcileTrain rp now) st).trainAnimations.any
        (fun f => f.1 == k)) = true := by
      by_contra hc
      have hfalse : ((trains.foldl (reconcileTrain rp now) st).trainAnimations.any
          (fun f => f.1 == k)) = false := by
        cases h2 : ((trains.foldl (reconcileTrain rp now) st).trainAnimations.any
            (fun f => f.1 == k))
        · rfl
        · exact absurd h2 hc
      have := (lookupA_eq_none_iff_any _ k).mpr hfalse
      rw [hfold.1] at this
      exact hnone this
    rw [hany]
    simp
  · intro hnone
    unfold reconcileBatch
    rw [cleanup_pos_lookup, hcont]
    have hany : ((trains.foldl (reconcileTrain rp now) st).trainAnimations.any
        (fun f => f.1 == k)) = false := by
      apply (lookupA_eq_none_iff_any _ k).mp
      rw [hfold.1]
      exact hnone
    rw [hany]
    simpa using hfold.2
  · intro rp2 now2 st2
    rw [animateFrame_ids]
    exact hk

/-- Witness for C8 (amended), discharging the absence hypothesis on the
empty batch. -/
theorem c8_absent_entities_witness :
    lookupA (reconcileBatch [] 0 stStale []).trainAnimations "X" = none :=
  (c8_absent_entities [] 0 stStale [] "X" (by simp)).1

/-! ### Bearing -/

theorem nearest_index_valid (p : Point) (line : List Point) (h2 : 2 ≤ line.length) :
    (nearestPointOnLine p line).index + 1 < line.length := by
  simp only [nearestPointOnLine]
  have hne : List.range (line.length - 1) ≠ [] := by
    simp only [ne_eq, List.range_eq_nil]
    omega
  obtain ⟨bd, hbd⟩ := nearFold_some p line (List.range (line.length - 1)) (none, ⟨p, 0, 0⟩) hne
  have hgood := nearFold_good p line (List.range (line.length - 1)) (none, ⟨p, 0, 0⟩)
    (fun i hi => by
      have := List.mem_range.mp hi
      omega) rfl
  exact (goodRes_some p line _ bd hgood hbd).2.2.2

/-- C6: `calculateBearing` is `atan2(Δlon, Δlat)` in degrees (0 = north,
90 = east, 180 = south, -90 = west: geographic clockwise convention); and
for a live path-based animation with at least 2 path points the frame
producer's bearing is the tangent between the two vertices of the segment
enclosing the projection of the current position onto the path, reversed by
180 degrees when the direction hint (trailing stop-id suffix) is southbound,
the hint that opposes the path's natural vertex ordering. -/
theorem c6_bearing_tangent (rp : RoutePaths) (routeId : String)
    (anim : TrainAnimation) (pinfo : PathInfo) (direction : Option Dir) (coords : Point)
    (a b : Point) (hpath : anim.path = some pinfo) (hlen : 2 ≤ pinfo.path.length) :
    calculateBearing a b = atan2 (b.1 - a.1) (b.2 - a.2) * (180 / Real.pi) ∧
    calculateBearing (0, 0) (0, 1) = 0 ∧
    calculateBearing (0, 0) (1, 0) = 90 ∧
    calculateBearing (0, 0) (0, -1) = 180 ∧
    calculateBearing (0, 0) (-1, 0) = -90 ∧
    bearingOf rp routeId (some anim) direction coords =
      some (calculateBearing (get pinfo.path (nearestPointOnLine coords pinfo.path).index)
          (get pinfo.path ((nearestPointOnLine coords pinfo.path).index + 1)) +
        (if direction = some Dir.S then 180 else 0)) := by
  have hπ : Real.pi ≠ 0 := Real.pi_ne_zero
  refine ⟨rfl, ?_, ?_, ?_, ?_, ?_⟩
  · simp only [calculateBearing, atan2]
    norm_num [Real.arctan_zero]
  · simp only [calculateBearing, atan2]
    norm_num
    field_simp
    ring
  · simp only [calculateBearing, atan2]
    norm_num [Real.arctan_zero]
    field_simp
  · simp only [calculateBearing, atan2]
    norm_num
    field_simp
    ring
  · simp only [bearingOf, hpath, if_pos hlen]
    congr 1
    simp only [segTangentBearing]
    have hidx := nearest_index_valid coords pinfo.path hlen
    rw [if_pos (by omega : (nearestPointOnLine coords pinfo.path).index < pinfo.path.length - 1)]
    by_cases hdir : direction = some Dir.S
    · rw [if_pos hdir, if_pos hdir]
    · rw [if_neg hdir, if_neg hdir, add_zero]

/-- Witness for C6 at a concrete two-point northbound path. -/
theorem c6_bearing_tangent_witness :
    bearingOf [] "L" (some (TrainAnimation.mk ((0:ℝ), (0:ℝ)) ((0:ℝ), (1:ℝ)) 0 "L"
        (some (PathInfo.mk [((0:ℝ), (0:ℝ)), ((0:ℝ), (1:ℝ))] 0 0 0 1)))) none ((0:ℝ), (0:ℝ)) =
      some (calculateBearing
          (get [((0:ℝ), (0:ℝ)), ((0:ℝ), (1:ℝ))]
            (nearestPointOnLine ((0:ℝ), (0:ℝ)) [((0:ℝ), (0:ℝ)), ((0:ℝ), (1:ℝ))]).index)
          (get [((0:ℝ), (0:ℝ)), ((0:ℝ), (1:ℝ))]
            ((nearestPointOnLine ((0:ℝ), (0:ℝ)) [((0:ℝ), (0:ℝ)), ((0:ℝ), (1:ℝ))]).index + 1)) +
        (if (none : Option Dir) = some Dir.S then 180 else 0)) :=
  (c6_bearing_tangent [] "L"
    (TrainAnimation.mk ((0:ℝ), (0:ℝ)) ((0:ℝ), (1:ℝ)) 0 "L"
      (some (PathInfo.mk [((0:ℝ), (0:ℝ)), ((0:ℝ), (1:ℝ))] 0 0 0 1)))
    (PathInfo.mk [((0:ℝ), (0:ℝ)), ((0:ℝ), (1:ℝ))] 0 0 0 1) none ((0:ℝ), (0:ℝ))
    ((0:ℝ), (0:ℝ)) ((0:ℝ), (0:ℝ)) rfl (by simp)).2.2.2.2.2

/-! ### The line-filter store: toggling twice -/

theorem foldl_erase_sdiff :
    ∀ (l : List String) (s : Finset String),
      l.foldl (fun acc r => acc.erase r) s = s \ l.toFinset := by
  intro l
  induction l with
  | nil => intro s; simp
  | cons a l ih =>
    intro s
    simp only [List.foldl]
    rw [ih (s.erase a)]
    ext x
    simp only [Finset.mem_sdiff, Finset.mem_erase, List.toFinset_cons, Finset.mem_insert]
    tauto

/-- C10: starting from the show-all state (null), toggling the same line
group twice returns the store to show-all: the first call activates exactly
the group's routes, and the second removes them all, collapsing the empty
set back to null. -/
theorem c10_toggle_twice_show_all (g : String) :
    toggleLine g none = some (groupRoutes g).toFinset ∧
    toggleLine g (toggleLine g none) = none := by
  have h1 : toggleLine g none = some (groupRoutes g).toFinset := rfl
  refine ⟨h1, ?_⟩
  rw [h1]
  have hall : (groupRoutes g).all (fun r => decide (r ∈ (groupRoutes g).toFinset)) = true := by
    simp [List.all_eq_true, List.mem_toFinset]
  simp only [toggleLine]
  rw [if_pos hall, foldl_erase_sdiff]
  simp

end MTA
